import Mathlib

/-!
Verification of the natural-language specification of the
`game-project-directory-creator` repository against its two Python sources,
`directory_svg_generator.py` (a directory-size visualizer) and
`game-project-directory-creator.py` (a project scaffolder).

The filesystem is modelled as a finite tree of directories (`NDir`).  Each
directory carries its base name, a flag saying whether listing its entries
succeeds (`listable`; a `PermissionError`/`FileNotFoundError` from
`os.listdir`/`os.walk` on that directory corresponds to `listable = false`),
the stat results of its regular files (`some n` for a file of `n` bytes,
`none` for a file whose `os.path.getsize` raises), and its subdirectories.

Python `float` arithmetic is modelled by exact rational arithmetic (`ℚ`);
`int(...)` truncation is truncation toward zero; `round(x, 2)` is
round-half-to-even at two decimal digits.  Python / JavaScript string
operations (`str.lower`, `String.prototype.trim`, lexicographic `<` on
strings) are modelled over `List Char` by code-point operations, matching
their behaviour on the ASCII directory names that occur in all concrete
instances used below.
-/

/-- A directory in the scanned filesystem snapshot: base name, whether
listing it succeeds, the stat results of its regular files, and its
subdirectories. -/
inductive NDir where
  | mk (name : String) (listable : Bool) (files : List (Option Nat)) (subdirs : List NDir)

/-- Base name of a directory. -/
def NDir.name : NDir → String
  | .mk n _ _ _ => n

/-- Whether listing the directory's entries succeeds. -/
def NDir.listable : NDir → Bool
  | .mk _ l _ _ => l

/-- Stat results of the directory's own regular files. -/
def NDir.files : NDir → List (Option Nat)
  | .mk _ _ fs _ => fs

/-- Immediate subdirectories. -/
def NDir.subdirs : NDir → List NDir
  | .mk _ _ _ subs => subs

/-- Byte contribution of one `os.path.getsize` call: a failed stat
(`FileNotFoundError`/`PermissionError`, line 55-56) contributes 0. -/
def statOrZero (o : Option Nat) : Nat := o.getD 0

mutual
/-- The sequence of file stat results yielded by `os.walk(directory)`
(lines 50-53): a directory whose listing fails yields nothing (its whole
subtree is skipped; `os.walk` suppresses listing errors by default, so the
outer `except` on line 57 never fires for them), otherwise its own files
followed by the files of its subtrees. -/
def walkFiles : NDir → List (Option Nat)
  | .mk _ listable fs subs => if listable then fs ++ walkFilesList subs else []

/-- Walk of a list of sibling subtrees, in listing order. -/
def walkFilesList : List NDir → List (Option Nat)
  | [] => []
  | d :: ds => walkFiles d ++ walkFilesList ds
end

/-- Models `calculate_dir_size` (lines 47-59): total of `os.path.getsize`
over every file yielded by `os.walk`, a failed stat adding 0. -/
def calculate_dir_size (d : NDir) : Nat :=
  ((walkFiles d).map statOrZero).sum

mutual
/-- Sum of the byte sizes of all regular files transitively contained in
the directory (its own files plus all descendants' files), failed stats
contributing 0, regardless of whether any directory is listable.  This is
the total named by the claim derived from the spec sentence for `size`. -/
def totalFileBytes : NDir → Nat
  | .mk _ _ fs subs => (fs.map statOrZero).sum + totalFileBytesList subs

/-- Total of `totalFileBytes` over a list of sibling subtrees. -/
def totalFileBytesList : List NDir → Nat
  | [] => 0
  | d :: ds => totalFileBytes d + totalFileBytesList ds
end

mutual
/-- Sum of the byte sizes of the regular files reachable through listable
directories only: a directory whose listing fails contributes 0 for its
entire subtree (spec 4.1: "directory is skipped ... size contribution
already accumulated stops there"), and a failed stat contributes 0. -/
def reachableFileBytes : NDir → Nat
  | .mk _ listable fs subs =>
    if listable then (fs.map statOrZero).sum + reachableFileBytesList subs else 0

/-- Total of `reachableFileBytes` over a list of sibling subtrees. -/
def reachableFileBytesList : List NDir → Nat
  | [] => 0
  | d :: ds => reachableFileBytes d + reachableFileBytesList ds
end

/-- Accumulator threaded through `scan_directory_sizes`: the
`self.dir_sizes` mapping (keyed here by the path, a list of directory names
from the root), `self.min_dir_size` (initially `float('inf')`, modelled as
`none`), and `self.max_dir_size` (initially 1). -/
structure ScanAcc where
  dir_sizes : List (List String × Nat)
  min_dir_size : Option Nat
  max_dir_size : Nat
deriving DecidableEq

/-- Initial scanner state (lines 44-45): `max_dir_size = 1`,
`min_dir_size = float('inf')`. -/
def initScanAcc : ScanAcc := { dir_sizes := [], min_dir_size := none, max_dir_size := 1 }

/-- One directory's update of the running minimum (line 71-72): only sizes
strictly greater than 0 lower the minimum; `min(inf, s) = s`. -/
def updMin (old : Option Nat) (s : Nat) : Option Nat :=
  if 0 < s then
    match old with
    | none => some s
    | some m => some (min m s)
  else old

mutual
/-- Models `scan_directory_sizes` (lines 61-75): if listing the directory
fails, return without recording anything (lines 67-68); otherwise record
`calculate_dir_size` under the directory's path, update the running
min/max, and recurse into each subdirectory in listing order. -/
def scan_directory_sizes (path : List String) (d : NDir) (acc : ScanAcc) : ScanAcc :=
  match d with
  | .mk _ listable _ subs =>
    if listable then
      let s := calculate_dir_size d
      let acc1 : ScanAcc :=
        { dir_sizes := acc.dir_sizes ++ [(path, s)]
          min_dir_size := updMin acc.min_dir_size s
          max_dir_size := max acc.max_dir_size s }
      scanSubdirs path subs acc1
    else acc

/-- Recursion of `scan_directory_sizes` over the listed subdirectories. -/
def scanSubdirs (path : List String) : List NDir → ScanAcc → ScanAcc
  | [], acc => acc
  | c :: cs, acc => scanSubdirs path cs (scan_directory_sizes (path ++ [c.name]) c acc)
end

/-- An RGB color as a triple of integers, modelling the Python tuples
`MIN_COLOR`, `MID_COLOR`, `MAX_COLOR`. -/
abbrev RGB := Int × Int × Int

/-- The color-ramp configuration held by the generator (lines 34-36):
low (`min_color`), mid (`mid_color`) and high (`max_color`) colors. -/
structure ColorCfg where
  min_color : RGB
  mid_color : RGB
  max_color : RGB
deriving DecidableEq

/-- The default ramp (lines 14-16): green, yellow, red. -/
def defaultCfg : ColorCfg :=
  { min_color := (0, 128, 0), mid_color := (255, 255, 0), max_color := (200, 0, 0) }

/-- Python `int(x)` on a float: truncation toward zero, modelled on an
exact rational as t-division of numerator by denominator. -/
def pyInt (q : ℚ) : Int := q.num.tdiv q.den

/-- Python `min(a, b)` (returns `a` when `a <= b`). -/
def pyMin (a b : ℚ) : ℚ := if a ≤ b then a else b

/-- Python `max(a, b)` (returns `a` when `a >= b`). -/
def pyMax (a b : ℚ) : ℚ := if b ≤ a then a else b

/-- Hexadecimal digit character (lowercase), as produced by Python `%x`. -/
def hexDigit (n : Nat) : Char := if n < 10 then Char.ofNat (48 + n) else Char.ofNat (87 + n)

/-- Hex digits of `n`, most significant first; `fuel` bounds the recursion
and any `fuel ≥ n` is enough. -/
def hexDigits : Nat → Nat → List Char
  | 0, _ => []
  | fuel + 1, n => if n = 0 then [] else hexDigits fuel (n / 16) ++ [hexDigit (n % 16)]

/-- Python `f"{n:02x}"` for an integer `n`: lowercase hex, zero-padded to
width 2; a negative value keeps its sign, e.g. `-64` formats as `"-40"`. -/
def pyHex02x (n : Int) : String :=
  if n < 0 then
    "-" ++ ⟨hexDigits n.natAbs n.natAbs⟩
  else if n = 0 then "00"
  else
    let ds := hexDigits n.toNat n.toNat
    if ds.length = 1 then ⟨'0' :: ds⟩ else ⟨ds⟩

/-- The fixed mid-color hex string returned in the degenerate case
(line 79); `int()` on the integer channels is the identity. -/
def midHex (cfg : ColorCfg) : String :=
  "#" ++ pyHex02x cfg.mid_color.1 ++ pyHex02x cfg.mid_color.2.1 ++ pyHex02x cfg.mid_color.2.2

/-- The RGB triple computed by `get_color_for_size` in the non-degenerate
case (lines 80-91), for observed minimum `m` and maximum `maxS` with
`m < maxS`.  Note line 91 of the source: the blue channel of the upper
half interpolates with `max_color[2] - min_color[2]`, while the red and
green channels use `mid_color`. -/
def get_color_rgb (cfg : ColorCfg) (m maxS size : Nat) : RGB :=
  let t0 : ℚ := ((size : ℚ) - (m : ℚ)) / ((maxS : ℚ) - (m : ℚ))
  let t : ℚ := pyMax 0 (pyMin 1 t0)
  if t ≤ 1 / 2 then
    let f := t * 2
    (pyInt ((cfg.min_color.1 : ℚ) + f * ((cfg.mid_color.1 : ℚ) - (cfg.min_color.1 : ℚ))),
     pyInt ((cfg.min_color.2.1 : ℚ) + f * ((cfg.mid_color.2.1 : ℚ) - (cfg.min_color.2.1 : ℚ))),
     pyInt ((cfg.min_color.2.2 : ℚ) + f * ((cfg.mid_color.2.2 : ℚ) - (cfg.min_color.2.2 : ℚ))))
  else
    let f := (t - 1 / 2) * 2
    (pyInt ((cfg.mid_color.1 : ℚ) + f * ((cfg.max_color.1 : ℚ) - (cfg.mid_color.1 : ℚ))),
     pyInt ((cfg.mid_color.2.1 : ℚ) + f * ((cfg.max_color.2.1 : ℚ) - (cfg.mid_color.2.1 : ℚ))),
     pyInt ((cfg.mid_color.2.2 : ℚ) + f * ((cfg.max_color.2.2 : ℚ) - (cfg.min_color.2.2 : ℚ))))

/-- The RGB triple the spec describes for the non-degenerate case
(spec 4.3): for `t <= 0.5` interpolate low toward mid with factor `t*2`,
otherwise interpolate mid toward high with factor `(t-0.5)*2`, every
channel (including blue) between the same pair of colors. -/
def spec_color_rgb (cfg : ColorCfg) (m maxS size : Nat) : RGB :=
  let t0 : ℚ := ((size : ℚ) - (m : ℚ)) / ((maxS : ℚ) - (m : ℚ))
  let t : ℚ := pyMax 0 (pyMin 1 t0)
  if t ≤ 1 / 2 then
    let f := t * 2
    (pyInt ((cfg.min_color.1 : ℚ) + f * ((cfg.mid_color.1 : ℚ) - (cfg.min_color.1 : ℚ))),
     pyInt ((cfg.min_color.2.1 : ℚ) + f * ((cfg.mid_color.2.1 : ℚ) - (cfg.min_color.2.1 : ℚ))),
     pyInt ((cfg.min_color.2.2 : ℚ) + f * ((cfg.mid_color.2.2 : ℚ) - (cfg.min_color.2.2 : ℚ))))
  else
    let f := (t - 1 / 2) * 2
    (pyInt ((cfg.mid_color.1 : ℚ) + f * ((cfg.max_color.1 : ℚ) - (cfg.mid_color.1 : ℚ))),
     pyInt ((cfg.mid_color.2.1 : ℚ) + f * ((cfg.max_color.2.1 : ℚ) - (cfg.mid_color.2.1 : ℚ))),
     pyInt ((cfg.mid_color.2.2 : ℚ) + f * ((cfg.max_color.2.2 : ℚ) - (cfg.mid_color.2.2 : ℚ))))

/-- The degenerate test of line 78: `max_dir_size <= min_dir_size or
min_dir_size == float('inf')`, with `min_dir_size = none` standing for
infinity (every finite `maxS` satisfies `maxS ≤ ∞`). -/
def degenerateRange (minS : Option Nat) (maxS : Nat) : Bool :=
  match minS with
  | none => true
  | some m => maxS ≤ m

/-- Models `get_color_for_size` (lines 77-92): the fixed mid color in the
degenerate case, otherwise the two-segment interpolation formatted as a
hex string. -/
def get_color_for_size (cfg : ColorCfg) (minS : Option Nat) (maxS : Nat) (size : Nat) : String :=
  if degenerateRange minS maxS then midHex cfg
  else
    match minS with
    | none => midHex cfg
    | some m =>
      let c := get_color_rgb cfg m maxS size
      "#" ++ pyHex02x c.1 ++ pyHex02x c.2.1 ++ pyHex02x c.2.2

/-- The unit-name table of `format_size` (line 97). -/
def size_names : List String := ["B", "KB", "MB", "GB", "TB"]

/-- Python `round(a / d, 2)` for naturals `a, d` with `d > 0`, returned as
the numerator over 100: round-half-to-even applied to `100 * a / d`. -/
def round2Num (a d : Nat) : Nat :=
  let a := 100 * a
  let q := a / d
  let r := a % d
  if 2 * r < d then q
  else if d < 2 * r then q + 1
  else if q % 2 = 0 then q else q + 1

/-- Decimal digits of `n`, most significant first; `fuel ≥ n` suffices. -/
def decDigits : Nat → Nat → List Char
  | 0, _ => []
  | fuel + 1, n => if n = 0 then [] else decDigits fuel (n / 10) ++ [Char.ofNat (48 + n % 10)]

/-- Decimal rendering of a natural number. -/
def decStr (n : Nat) : String :=
  if n = 0 then "0" else ⟨decDigits n n⟩

/-- Python `str(s)` for the float `s = k / 100` produced by `round(·, 2)`
(with `k = round2Num ...`): the shortest decimal that denotes it — an
integral value keeps a trailing `.0`, one fractional digit is printed
without its trailing zero, and two fractional digits print both (with a
leading zero when needed). -/
def renderRound2 (k : Nat) : String :=
  let w := k / 100
  let f := k % 100
  if f = 0 then decStr w ++ ".0"
  else if f % 10 = 0 then decStr w ++ "." ++ decStr (f / 10)
  else if f < 10 then decStr w ++ ".0" ++ decStr f
  else decStr w ++ "." ++ decStr f

/-- Models `format_size` (lines 94-101).  `0` is special-cased to `"0 B"`;
otherwise `i = int(math.floor(math.log(size_bytes, 1024)))` (exactly
`Nat.log 1024` in real arithmetic), `p = 1024 ** i`, and the result is
`f"{round(size_bytes / p, 2)} {size_names[i]}"`.  When `i` is at least the
length of `size_names`, the lookup `size_names[i]` raises `IndexError`;
the raised exception is modelled as `none`. -/
def format_size (size_bytes : Nat) : Option String :=
  if size_bytes = 0 then some "0 B"
  else
    let i := Nat.log 1024 size_bytes
    match size_names[i]? with
    | none => none
    | some unit => some (renderRound2 (round2Num size_bytes (1024 ^ i)) ++ " " ++ unit)

/-- A node identifier.  Models `_generate_id` (lines 476-477), which
returns `"node_"` plus the first 8 hex characters of the MD5 digest of the
absolute path: a pure deterministic function of the path.  The spec
stipulates that collisions are negligible, so the digest is modelled as an
injective function of the path (the wrapped path itself). -/
structure NodeId where
  digest : List String
deriving DecidableEq

/-- Models `_generate_id` (lines 476-477) as a pure injective function of
the path. -/
def generate_id (path : List String) : NodeId := ⟨path⟩

/-- One record of `self.directory_tree` (lines 109-118). -/
structure DirNode where
  id : NodeId
  name : String
  path : List String
  size : Nat
  formatted_size : Option String
  children : List NodeId
  color : String
  parent : Option NodeId
deriving DecidableEq

/-- Python code-point comparison of strings (`sorted` uses `<` on `str`,
which compares code points lexicographically, case-sensitively). -/
def lexLt : List Char → List Char → Bool
  | _, [] => false
  | [], _ :: _ => true
  | c :: cs, d :: ds => if c < d then true else if d < c then false else lexLt cs ds

/-- Insert a string into an already sorted list, keeping equal elements in
their original relative order (Python `sorted` is stable). -/
def insertStr (s : String) : List String → List String
  | [] => [s]
  | t :: ts => if lexLt s.data t.data then s :: t :: ts else t :: insertStr s ts

/-- Models Python `sorted` on a list of strings: stable insertion sort by
case-sensitive code-point order. -/
def sortStrs : List String → List String
  | [] => []
  | s :: ss => insertStr s (sortStrs ss)

/-- Names of the immediate subdirectories, in listing order. -/
def subNames (subs : List NDir) : List String := subs.map NDir.name

/-- The sorted child-name listing of `build_directory_tree` (lines
121-122): `sorted` of the subdirectory names if listing succeeds, nothing
if it raises (lines 128-129). -/
def listedChildNames (d : NDir) : List String :=
  if d.listable then sortStrs (subNames d.subdirs) else []

/-- Lookup in the `dir_sizes` mapping with default 0
(`self.dir_sizes.get(directory, 0)`, line 108). -/
def lookupSize (m : List (List String × Nat)) (p : List String) : Nat :=
  match m.find? (fun e => e.1 = p) with
  | some e => e.2
  | none => 0

/-- The `node_data` record built for one directory (lines 106-118, 127):
id and name from the path, size from the scanner's mapping (default 0),
formatted size and color derived from it, children the ids of the sorted
subdirectory names (appended in sorted order, line 123-127), parent as
passed in. -/
def mkNode (cfg : ColorCfg) (minS : Option Nat) (maxS : Nat)
    (sizes : List (List String × Nat)) (parent : Option NodeId) (path : List String)
    (d : NDir) : DirNode :=
  let size := lookupSize sizes path
  { id := generate_id path
    name := d.name
    path := path
    size := size
    formatted_size := format_size size
    children := (listedChildNames d).map (fun nm => generate_id (path ++ [nm]))
    color := get_color_for_size cfg minS maxS size
    parent := parent }

mutual
/-- Models `build_directory_tree` (lines 103-130) as the association list
of `self.directory_tree` entries it creates: the node for this directory
followed by the entries of every subdirectory subtree (the source recurses
in sorted order; the resulting id-keyed mapping has exactly the same
key-value pairs when recursing in listing order, which is what the model
does). -/
def build_directory_tree (cfg : ColorCfg) (minS : Option Nat) (maxS : Nat)
    (sizes : List (List String × Nat)) (parent : Option NodeId) (path : List String) :
    NDir → List (NodeId × DirNode)
  | .mk nm listable fs subs =>
    (generate_id path, mkNode cfg minS maxS sizes parent path (.mk nm listable fs subs)) ::
      (if listable then
        buildSubdirs cfg minS maxS sizes (generate_id path) path subs
      else [])

/-- Recursion of `build_directory_tree` over the subdirectories, each with
this directory's id as parent (line 126). -/
def buildSubdirs (cfg : ColorCfg) (minS : Option Nat) (maxS : Nat)
    (sizes : List (List String × Nat)) (pid : NodeId) (path : List String) :
    List NDir → List (NodeId × DirNode)
  | [] => []
  | c :: cs =>
    build_directory_tree cfg minS maxS sizes (some pid) (path ++ [c.name]) c ++
      buildSubdirs cfg minS maxS sizes pid path cs
end

mutual
/-- The paths of all directories visited by `build_directory_tree`
starting from `path`: the directory itself, then (when listable) the
paths of each subdirectory subtree. -/
def pathsOf (path : List String) : NDir → List (List String)
  | .mk _ listable _ subs => path :: (if listable then pathsList path subs else [])

/-- Paths of a list of sibling subtrees. -/
def pathsList (path : List String) : List NDir → List (List String)
  | [] => []
  | c :: cs => pathsOf (path ++ [c.name]) c ++ pathsList path cs
end

mutual
/-- Every sibling list in the tree has pairwise distinct names — the
filesystem invariant that a directory cannot contain two entries with the
same name. -/
def uniqNames : NDir → Bool
  | .mk _ _ _ subs => (subNames subs).Nodup && uniqNamesList subs

/-- Conjunction of `uniqNames` over a list of sibling subtrees. -/
def uniqNamesList : List NDir → Bool
  | [] => true
  | c :: cs => uniqNames c && uniqNamesList cs
end

/-- Models `save_svg`'s generation sequence (lines 479-481): scan the
sizes, then build the tree with the scanned mapping and observed min/max,
with the default color configuration and no parent for the root. -/
def runPipeline (rootName : String) (d : NDir) : List (NodeId × DirNode) :=
  let acc := scan_directory_sizes [rootName] d initScanAcc
  build_directory_tree defaultCfg acc.min_dir_size acc.max_dir_size acc.dir_sizes
    none [rootName] d

/-- Lowercase an ASCII letter, as both Python `str.lower` and JavaScript
`toLowerCase` do on the ASCII range. -/
def lowerChar (c : Char) : Char :=
  if 'A' ≤ c ∧ c ≤ 'Z' then Char.ofNat (c.toNat + 32) else c

/-- Code points of a string, lowercased. -/
def lowerData (s : String) : List Char := s.data.map lowerChar

/-- Whether `pat` is an initial segment of `hay`. -/
def isPre : List Char → List Char → Bool
  | [], _ => true
  | _ :: _, [] => false
  | c :: cs, d :: ds => c = d && isPre cs ds

/-- JavaScript `hay.includes(pat)`: `pat` occurs contiguously in `hay`. -/
def containsSub : List Char → List Char → Bool
  | [], pat => isPre pat []
  | h :: t, pat => isPre pat (h :: t) || containsSub t pat

/-- ASCII whitespace, the characters `String.prototype.trim` strips in the
inputs modelled here. -/
def isWs (c : Char) : Bool := c = ' ' || c = '\t' || c = '\n' || c = '\r'

/-- JavaScript `term.trim()`. -/
def trimWs (l : List Char) : List Char :=
  ((l.dropWhile isWs).reverse.dropWhile isWs).reverse

/-- The client-side per-node interaction state: `treeData[id].highlight`
plus `nodeStates[id].visible` and `nodeStates[id].expanded`. -/
structure SState where
  highlight : Bool
  visible : Bool
  expanded : Bool
deriving DecidableEq

/-- The view the search handler has of one `treeData` node: its id, its
`name`, and the chain of ids the `while (parentId)` loop of lines 459-464
visits (immediate parent first, root last; `build_directory_tree` sets
each node's `parent` to the id of the directory it was reached from, and
the root's parent to `None`, so the chain is exactly the node's ancestor
paths). -/
structure SNode where
  id : NodeId
  name : String
  ancestors : List NodeId
deriving DecidableEq

mutual
/-- The `SNode` views of all entries of the built tree, in build order,
accumulating the ancestor chain on the way down. -/
def nodesOf (path : List String) (anc : List NodeId) : NDir → List SNode
  | .mk nm listable _ subs =>
    ⟨generate_id path, nm, anc⟩ ::
      (if listable then nodesList path (generate_id path :: anc) subs else [])

/-- Views of a list of sibling subtrees. -/
def nodesList (path : List String) (anc : List NodeId) : List NDir → List SNode
  | [] => []
  | c :: cs => nodesOf (path ++ [c.name]) anc c ++ nodesList path anc cs
end

/-- Pointwise update of a state map at one id. -/
def updState (st : NodeId → SState) (i : NodeId) (f : SState → SState) : NodeId → SState :=
  fun j => if j = i then f (st j) else st j

/-- The match test of line 454:
`node.name.toLowerCase().includes(searchTerm)`. -/
def nameMatches (term : List Char) (e : SNode) : Bool :=
  containsSub (lowerData e.name) term

/-- The ancestor walk of lines 459-464: mark every id on the parent chain
expanded and visible. -/
def markAncestors (st : NodeId → SState) : List NodeId → NodeId → SState
  | [] => st
  | a :: rest =>
    markAncestors (updState st a (fun s => { s with expanded := true, visible := true })) rest

/-- The per-node body of the match loop (lines 452-468): a matching node
is highlighted, expanded and made visible and its ancestor chain expanded
and made visible; a non-matching node only has its highlight cleared. -/
def searchStep (term : List Char) (st : NodeId → SState) (e : SNode) : NodeId → SState :=
  if nameMatches term e then
    markAncestors
      (updState st e.id (fun _ => { highlight := true, visible := true, expanded := true }))
      e.ancestors
  else
    updState st e.id (fun s => { s with highlight := false })

/-- Models `searchNodes` (lines 431-469) together with its call site
(lines 241-243, which lowercases the raw input): first every node's
highlight/visible/expanded is reset to false (lines 433-437, modelled as
the constant all-false state since the reset runs over every id); if the
trimmed term is empty, only the root is expanded and made visible and its
direct children made visible (lines 439-449); otherwise every node is
processed by the match loop (lines 452-468). -/
def searchNodes (raw : String) (rootId : NodeId) (rootChildren : List NodeId)
    (nodes : List SNode) : NodeId → SState :=
  let term := (lowerData raw)
  let st0 : NodeId → SState := fun _ => { highlight := false, visible := false, expanded := false }
  if (trimWs term).isEmpty then
    let st1 := updState st0 rootId (fun s => { s with expanded := true, visible := true })
    rootChildren.foldl (fun st c => updState st c (fun s => { s with visible := true })) st1
  else
    nodes.foldl (searchStep term) st0

/-- Models `game_name.replace(" ", "")` (line 32 of
`game-project-directory-creator.py`): replacing the single-character
pattern `" "` by the empty string removes every space character. -/
def removeSpaces (s : String) : String := ⟨s.data.filter (fun c => c ≠ ' ')⟩

/-- POSIX `os.path.join(a, b)`: an absolute `b` discards `a`; otherwise
`a` and `b` are glued with exactly one separator. -/
def pyJoin (a b : String) : String :=
  if b.data.head? = some '/' then b
  else if a.data = [] then b
  else if a.data.getLast? = some '/' then a ++ b
  else a ++ "/" ++ b

/-- Models `create_game_directory_structure` (lines 15-440 of
`game-project-directory-creator.py`) restricted to its returned value: the
project path is `os.path.join(root_directory, game_name.replace(" ", ""))`
(line 32) and is what the function returns (line 440); the filesystem
side effects along the way are not modelled. -/
def create_game_directory_structure (game_name root_directory : String) : String :=
  pyJoin root_directory (removeSpaces game_name)

mutual
/-- The directory subtrees visited by `build_directory_tree` from a given
path: the directory itself paired with its path, then (when listable) the
subtrees of each listed subdirectory. -/
def subtreesAt (path : List String) : NDir → List (List String × NDir)
  | .mk nm l fs subs =>
    (path, .mk nm l fs subs) :: (if l then subtreesList path subs else [])

/-- Subtrees of a list of sibling subtrees. -/
def subtreesList (path : List String) : List NDir → List (List String × NDir)
  | [] => []
  | c :: cs => subtreesAt (path ++ [c.name]) c ++ subtreesList path cs
end

/-- All child ids recorded across a node mapping, in order. -/
def allChildren (es : List (NodeId × DirNode)) : List NodeId :=
  (es.map (fun e => e.2.children)).flatten

/-- Number of occurrences of an id among all `children` lists of a node
mapping. -/
def childOcc (es : List (NodeId × DirNode)) (i : NodeId) : Nat :=
  (allChildren es).count i

mutual
/-- The walked stat results of a directory sum to the bytes reachable
through listable directories. -/
theorem walkFiles_sum (d : NDir) :
    ((walkFiles d).map statOrZero).sum = reachableFileBytes d := by
  cases d with
  | mk n l fs subs =>
    cases l with
    | false => simp [walkFiles, reachableFileBytes]
    | true => simp [walkFiles, reachableFileBytes, walkFilesList_sum subs]

/-- List version of `walkFiles_sum`. -/
theorem walkFilesList_sum (l : List NDir) :
    ((walkFilesList l).map statOrZero).sum = reachableFileBytesList l := by
  cases l with
  | nil => simp [walkFilesList, reachableFileBytesList]
  | cons d ds =>
    simp [walkFilesList, reachableFileBytesList, walkFiles_sum d, walkFilesList_sum ds]
end

/-- C1, counterexample.  A listable directory with no files of its own
whose only subdirectory cannot be listed but contains a 5-byte statable
file: `calculate_dir_size` returns 0, while the sum of the byte sizes of
all regular files transitively contained under the directory is 5. -/
theorem c1_size_counterexample :
    calculate_dir_size (.mk "root" true [] [.mk "sub" false [some 5] []]) = 0 ∧
    totalFileBytes (.mk "root" true [] [.mk "sub" false [some 5] []]) = 5 ∧
    calculate_dir_size (.mk "root" true [] [.mk "sub" false [some 5] []]) ≠
      totalFileBytes (.mk "root" true [] [.mk "sub" false [some 5] []]) := by
  refine ⟨by decide, by decide, by decide⟩

/-- C1, amended.  For every directory, the computed size equals the sum of
the byte sizes of the regular files reachable through listable
directories: a file whose stat fails contributes exactly zero, a directory
whose listing fails contributes zero for its entire subtree, and neither
failure is fatal (the function is total). -/
theorem c1_size_sums_reachable_files (d : NDir) :
    calculate_dir_size d = reachableFileBytes d := by
  simpa [calculate_dir_size] using walkFiles_sum d

/-- Truncation toward zero of an integer-valued rational is the integer. -/
theorem pyInt_intCast (n : Int) : pyInt (n : ℚ) = n := by
  simp [pyInt, Rat.num_intCast, Rat.den_intCast]

/-- Truncation evaluated through an integer-valued rewriting of its
argument. -/
theorem pyInt_eval (q : ℚ) (n : Int) (h : q = (n : ℚ)) : pyInt q = n := by
  rw [h, pyInt_intCast]

/-- C2, evaluation at the failing input.  With the overridable ramp set to
low `(0,128,64)`, mid `(255,255,0)`, high `(200,0,0)` and observed range
1..3, the size 3 normalizes to `t = 1 > 0.5`, and the code's blue channel
uses `max_color[2] - min_color[2]` (line 91), producing the RGB triple
`(200, 0, -64)`, while the spec's mid-to-high interpolation gives
`(200, 0, 0)`. -/
theorem c2_blue_channel_diverges :
    get_color_rgb ⟨(0, 128, 64), (255, 255, 0), (200, 0, 0)⟩ 1 3 3 = (200, 0, -64) ∧
    spec_color_rgb ⟨(0, 128, 64), (255, 255, 0), (200, 0, 0)⟩ 1 3 3 = (200, 0, 0) ∧
    get_color_rgb ⟨(0, 128, 64), (255, 255, 0), (200, 0, 0)⟩ 1 3 3 ≠
      spec_color_rgb ⟨(0, 128, 64), (255, 255, 0), (200, 0, 0)⟩ 1 3 3 := by
  have ht : pyMax 0 (pyMin 1 ((((3 : Nat) : ℚ) - ((1 : Nat) : ℚ)) / (((3 : Nat) : ℚ) - ((1 : Nat) : ℚ)))) = 1 := by
    norm_num [pyMin, pyMax]
  have h1 : get_color_rgb ⟨(0, 128, 64), (255, 255, 0), (200, 0, 0)⟩ 1 3 3 = (200, 0, -64) := by
    simp only [get_color_rgb, ht]
    rw [if_neg (by norm_num : ¬ (1 : ℚ) ≤ 1 / 2)]
    refine Prod.ext ?_ (Prod.ext ?_ ?_) <;>
      · apply pyInt_eval
        norm_num
  have h2 : spec_color_rgb ⟨(0, 128, 64), (255, 255, 0), (200, 0, 0)⟩ 1 3 3 = (200, 0, 0) := by
    simp only [spec_color_rgb, ht]
    rw [if_neg (by norm_num : ¬ (1 : ℚ) ≤ 1 / 2)]
    refine Prod.ext ?_ (Prod.ext ?_ ?_) <;>
      · apply pyInt_eval
        norm_num
  exact ⟨h1, h2, by rw [h1, h2]; decide⟩

/-- C3.  Whenever the observed maximum size is at most the observed
minimum (including the case where no non-empty directory was found, i.e.
the minimum is still infinite), the default-configuration color mapper
returns exactly the mid color "#ffff00" for every input size. -/
theorem c3_degenerate_yellow (minS : Option Nat) (maxS size : Nat)
    (h : degenerateRange minS maxS = true) :
    get_color_for_size defaultCfg minS maxS size = "#ffff00" := by
  simp only [get_color_for_size, h, if_true]
  decide

/-- Witness for C3 at a concrete degenerate input: an untouched scanner
range (minimum still infinite, maximum 1) and size 0. -/
theorem c3_degenerate_yellow_witness :
    degenerateRange none 1 = true ∧ get_color_for_size defaultCfg none 1 0 = "#ffff00" :=
  ⟨by decide, c3_degenerate_yellow none 1 0 (by decide)⟩

/-- The integer part of `math.log 1023 / math.log 1024` in base 1024. -/
theorem log1024_1023 : Nat.log 1024 1023 = 0 :=
  Nat.log_eq_zero_iff.mpr (Or.inl (by norm_num))

/-- Base-1024 logarithm of 1024 is 1. -/
theorem log1024_1024 : Nat.log 1024 1024 = 1 :=
  Nat.log_eq_of_pow_le_of_lt_pow (by norm_num) (by norm_num)

/-- Base-1024 logarithm of 1024² is 2. -/
theorem log1024_sq : Nat.log 1024 (1024 * 1024) = 2 :=
  Nat.log_eq_of_pow_le_of_lt_pow (by norm_num) (by norm_num)

/-- C4, counterexample.  `format_size 1023` renders the rounded float
`1023.0` with its trailing `.0` (Python `round(1023 / 1, 2)` is the float
`1023.0` and `str` keeps one fractional digit), so the result is
"1023.0 B", not "1023 B" as claimed. -/
theorem c4_1023_counterexample :
    format_size 1023 = some "1023.0 B" ∧ format_size 1023 ≠ some "1023 B" := by
  have h : format_size 1023 = some "1023.0 B" := by
    rw [format_size, if_neg (by norm_num), log1024_1023]
    decide
  exact ⟨h, by rw [h]; decide⟩

/-- C4, amended.  The size formatter maps byte counts to human-readable
strings with binary units and divisor 1024 and two-decimal rounding, and
in particular: `format_size 0 = "0 B"`, `format_size 1023 = "1023.0 B"`
(an exact multiple of the unit keeps the float's trailing ".0"),
`format_size 1024 = "1.0 KB"`, and `format_size (1024*1024) = "1.0 MB"`. -/
theorem c4_format_size_values :
    format_size 0 = some "0 B" ∧
    format_size 1023 = some "1023.0 B" ∧
    format_size 1024 = some "1.0 KB" ∧
    format_size (1024 * 1024) = some "1.0 MB" := by
  refine ⟨by decide, c4_1023_counterexample.1, ?_, ?_⟩
  · rw [format_size, if_neg (by norm_num), log1024_1024]
    decide
  · rw [format_size, if_neg (by norm_num), log1024_sq]
    decide

/-- C9.  For every byte count of at least 1024⁵ (1 PiB) the computed unit
index `int(math.floor(math.log(size_bytes, 1024)))` is at least 5, the
length of the unit-name list, so the lookup `size_names[i]` is out of
bounds and `format_size` raises (returns `none`) instead of producing a
string. -/
theorem c9_format_size_overflow (n : Nat) (h : 1024 ^ 5 ≤ n) :
    format_size n = none := by
  have hn : n ≠ 0 := by
    intro h0
    rw [h0] at h
    exact absurd h (by norm_num)
  have hi : 5 ≤ Nat.log 1024 n := (Nat.pow_le_iff_le_log (by norm_num) hn).1 h
  simp only [format_size, if_neg hn]
  rw [List.getElem?_eq_none (by simpa [size_names] using hi)]

/-- Witness for C9 at the smallest failing input, 1024⁵ bytes. -/
theorem c9_format_size_overflow_witness :
    1024 ^ 5 ≤ 1024 ^ 5 ∧ format_size (1024 ^ 5) = none :=
  ⟨le_refl _, c9_format_size_overflow (1024 ^ 5) (le_refl _)⟩

/-- C10.  The scaffolder's project directory is the root directory joined
with the game name stripped of every space character (the returned path,
line 440, is the `game_dir` of line 32); a name containing a space is
therefore never used verbatim as the directory name. -/
theorem c10_scaffold_path (game_name root_directory : String) :
    create_game_directory_structure game_name root_directory =
      pyJoin root_directory (removeSpaces game_name) ∧
    (removeSpaces game_name).data = game_name.data.filter (fun c => c ≠ ' ') ∧
    (' ' ∈ game_name.data → removeSpaces game_name ≠ game_name) := by
  refine ⟨rfl, rfl, ?_⟩
  intro hsp heq
  have hdata : game_name.data.filter (fun c => decide (c ≠ ' ')) = game_name.data := by
    have := congrArg String.data heq
    simpa [removeSpaces] using this
  have hmem : (' ' : Char) ∈ game_name.data.filter (fun c => decide (c ≠ ' ')) := by
    rw [hdata]
    exact hsp
  have := (List.mem_filter.mp hmem).2
  simp at this

/-- Witness for C10: the name "My Awesome Game" scaffolds at
"/games/MyAwesomeGame", not at a path containing the raw name. -/
theorem c10_scaffold_path_witness :
    create_game_directory_structure "My Awesome Game" "/games" = "/games/MyAwesomeGame" ∧
    (' ' ∈ ("My Awesome Game" : String).data) ∧
    removeSpaces "My Awesome Game" ≠ "My Awesome Game" :=
  ⟨by decide, by decide,
    (c10_scaffold_path "My Awesome Game" "/games").2.2 (by decide)⟩

/-- Code-point comparison never puts a list strictly before itself. -/
theorem lexLt_irrefl (a : List Char) : lexLt a a = false := by
  induction a with
  | nil => rfl
  | cons c cs ih => simp [lexLt, ih]

/-- Code-point comparison is transitive. -/
theorem lexLt_trans {a b c : List Char} (h1 : lexLt a b = true) (h2 : lexLt b c = true) :
    lexLt a c = true := by
  induction a generalizing b c with
  | nil =>
    cases b with
    | nil => simp [lexLt] at h1
    | cons y ys =>
      cases c with
      | nil => simp [lexLt] at h2
      | cons z zs => simp [lexLt]
  | cons x xs ih =>
    cases b with
    | nil => simp [lexLt] at h1
    | cons y ys =>
      cases c with
      | nil => simp [lexLt] at h2
      | cons z zs =>
        simp only [lexLt] at h1 h2 ⊢
        by_cases hxy : x < y
        · simp only [hxy, if_true] at h1
          by_cases hyz : y < z
          · simp [lt_trans hxy hyz]
          · simp only [hyz, if_false] at h2
            by_cases hzy : z < y
            · simp [hzy] at h2
            · have : y = z := le_antisymm (not_lt.mp hzy) (not_lt.mp hyz)
              simp [this ▸ hxy]
        · simp only [hxy, if_false] at h1
          by_cases hyx : y < x
          · simp [hyx] at h1
          · have hxy2 : x = y := le_antisymm (not_lt.mp hyx) (not_lt.mp hxy)
            rw [if_neg hyx] at h1
            by_cases hyz : y < z
            · simp [hxy2 ▸ hyz]
            · simp only [hyz, if_false] at h2
              by_cases hzy : z < y
              · simp [hzy] at h2
              · have hyz2 : y = z := le_antisymm (not_lt.mp hzy) (not_lt.mp hyz)
                rw [if_neg hzy] at h2
                have hxz : ¬ x < z := by rw [hxy2, hyz2]; exact lt_irrefl z
                have hzx : ¬ z < x := by rw [hxy2, hyz2]; exact lt_irrefl z
                simp only [hxz, if_false, hzx]
                exact ih h1 h2

/-- Code-point comparison is asymmetric. -/
theorem lexLt_asymm {a b : List Char} (h : lexLt a b = true) : lexLt b a = false := by
  by_contra hc
  have hba : lexLt b a = true := by
    cases hh : lexLt b a
    · exact absurd hh hc
    · rfl
  have := lexLt_trans h hba
  rw [lexLt_irrefl] at this
  exact Bool.false_ne_true this

/-- Two lists neither of which precedes the other are equal. -/
theorem lexLt_eq_of_not {a b : List Char} (h1 : lexLt a b = false) (h2 : lexLt b a = false) :
    a = b := by
  induction a generalizing b with
  | nil =>
    cases b with
    | nil => rfl
    | cons y ys => simp [lexLt] at h1
  | cons x xs ih =>
    cases b with
    | nil => simp [lexLt] at h2
    | cons y ys =>
      simp only [lexLt] at h1 h2
      by_cases hxy : x < y
      · simp [hxy] at h1
      · by_cases hyx : y < x
        · simp [hyx] at h2
        · simp only [hxy, hyx, if_false] at h1 h2
          have : x = y := le_antisymm (not_lt.mp hyx) (not_lt.mp hxy)
          rw [this, ih h1 h2]

/-- The relation "does not come strictly after" is transitive. -/
theorem lexLt_not_trans {a b c : List Char} (h1 : lexLt b a = false) (h2 : lexLt c b = false) :
    lexLt c a = false := by
  by_contra hc
  have hca : lexLt c a = true := by
    cases hh : lexLt c a
    · exact absurd hh hc
    · rfl
  by_cases hbc : lexLt b c = true
  · have := lexLt_trans hbc hca
    rw [h1] at this
    exact Bool.false_ne_true this
  · have hbc2 : lexLt b c = false := by
      cases hh : lexLt b c
      · rfl
      · exact absurd hh hbc
    have : b = c := lexLt_eq_of_not hbc2 h2
    rw [← this, h1] at hca
    exact Bool.false_ne_true hca

/-- Inserting into a list is a permutation of consing. -/
theorem insertStr_perm (s : String) (l : List String) : List.Perm (insertStr s l) (s :: l) := by
  induction l with
  | nil => rfl
  | cons t ts ih =>
    rw [insertStr]
    by_cases h : lexLt s.data t.data = true
    · rw [if_pos h]
    · rw [if_neg h]
      exact (ih.cons t).trans (List.Perm.swap s t ts)

/-- The insertion sort modelling Python `sorted` permutes its input. -/
theorem sortStrs_perm (l : List String) : List.Perm (sortStrs l) l := by
  induction l with
  | nil => rfl
  | cons s ss ih =>
    rw [sortStrs]
    exact (insertStr_perm s (sortStrs ss)).trans (ih.cons s)

/-- Insertion preserves sortedness in weak code-point order. -/
theorem insertStr_sorted (s : String) (l : List String)
    (h : List.Pairwise (fun a b : String => lexLt b.data a.data = false) l) :
    List.Pairwise (fun a b : String => lexLt b.data a.data = false) (insertStr s l) := by
  induction l with
  | nil => simp [insertStr]
  | cons t ts ih =>
    rw [insertStr]
    rcases List.pairwise_cons.mp h with ⟨ht, hts⟩
    by_cases hst : lexLt s.data t.data = true
    · rw [if_pos hst]
      refine List.pairwise_cons.mpr ⟨?_, h⟩
      intro x hx
      rcases List.mem_cons.mp hx with hxt | hxts
      · rw [hxt]
        exact lexLt_asymm hst
      · have hxtle := ht x hxts
        by_contra hc
        have hxs : lexLt x.data s.data = true := by
          cases hh : lexLt x.data s.data
          · exact absurd hh hc
          · rfl
        have := lexLt_trans hxs hst
        rw [hxtle] at this
        exact Bool.false_ne_true this
    · rw [if_neg hst]
      have hst2 : lexLt s.data t.data = false := by
        cases hh : lexLt s.data t.data
        · rfl
        · exact absurd hh hst
      refine List.pairwise_cons.mpr ⟨?_, ih hts⟩
      intro x hx
      rcases List.mem_cons.mp ((insertStr_perm s ts).mem_iff.mp hx) with hxs | hxts
      · rw [hxs]
        exact hst2
      · exact ht x hxts

/-- The insertion sort produces a list sorted in weak code-point order. -/
theorem sortStrs_sorted (l : List String) :
    List.Pairwise (fun a b : String => lexLt b.data a.data = false) (sortStrs l) := by
  induction l with
  | nil => simp [sortStrs]
  | cons s ss ih =>
    rw [sortStrs]
    exact insertStr_sorted s (sortStrs ss) ih

/-- Node ids are injective in the path (the spec stipulates digest
collisions are negligible). -/
theorem generate_id_inj : Function.Injective generate_id := by
  intro a b h
  simpa [generate_id] using congrArg NodeId.digest h

/-- The visited paths always start with the directory's own path. -/
theorem pathsOf_eq_cons (p : List String) (d : NDir) :
    pathsOf p d = p :: (pathsOf p d).tail := by
  cases d with
  | mk nm l fs subs => rfl

mutual
/-- The keys of the built mapping are the visited paths, in order. -/
theorem build_keys (cfg : ColorCfg) (minS : Option Nat) (maxS : Nat)
    (sizes : List (List String × Nat)) (parent : Option NodeId) (path : List String)
    (d : NDir) :
    (build_directory_tree cfg minS maxS sizes parent path d).map Prod.fst =
      (pathsOf path d).map generate_id := by
  cases d with
  | mk nm l fs subs =>
    cases l with
    | false => simp [build_directory_tree, pathsOf]
    | true =>
      simp [build_directory_tree, pathsOf,
        buildSubdirs_keys cfg minS maxS sizes (generate_id path) path subs]

/-- List version of `build_keys`. -/
theorem buildSubdirs_keys (cfg : ColorCfg) (minS : Option Nat) (maxS : Nat)
    (sizes : List (List String × Nat)) (pid : NodeId) (path : List String)
    (l : List NDir) :
    (buildSubdirs cfg minS maxS sizes pid path l).map Prod.fst =
      (pathsList path l).map generate_id := by
  cases l with
  | nil => simp [buildSubdirs, pathsList]
  | cons c cs =>
    simp [buildSubdirs, pathsList,
      build_keys cfg minS maxS sizes (some pid) (path ++ [c.name]) c,
      buildSubdirs_keys cfg minS maxS sizes pid path cs]
end

mutual
/-- Every visited path extends the starting path. -/
theorem pathsOf_extends (p : List String) (d : NDir) :
    ∀ q ∈ pathsOf p d, p <+: q := by
  cases d with
  | mk nm l fs subs =>
    intro q hq
    rw [pathsOf] at hq
    rcases List.mem_cons.mp hq with h | h
    · rw [h]
    · cases l with
      | false => simp at h
      | true =>
        simp only [if_true] at h
        rcases pathsList_extends p subs q h with ⟨c, _, hpre⟩
        have hp : p <+: p ++ [c.name] := ⟨[c.name], rfl⟩
        exact hp.trans hpre

/-- Every path visited below a sibling list extends the path of one of the
siblings. -/
theorem pathsList_extends (p : List String) (l : List NDir) :
    ∀ q ∈ pathsList p l, ∃ c ∈ l, (p ++ [c.name]) <+: q := by
  cases l with
  | nil => intro q hq; simp [pathsList] at hq
  | cons c cs =>
    intro q hq
    rw [pathsList] at hq
    rcases List.mem_append.mp hq with h | h
    · exact ⟨c, List.mem_cons_self c cs, pathsOf_extends (p ++ [c.name]) c q h⟩
    · rcases pathsList_extends p cs q h with ⟨c2, hc2, hpre⟩
      exact ⟨c2, List.mem_cons_of_mem c hc2, hpre⟩
end

/-- A path is never among the paths of the subtrees strictly below it. -/
theorem self_not_mem_pathsList (p : List String) (l : List NDir) :
    p ∉ pathsList p l := by
  intro hmem
  rcases pathsList_extends p l p hmem with ⟨c, _, hpre⟩
  have := hpre.length_le
  simp at this

mutual
/-- With pairwise-distinct sibling names everywhere, the visited paths are
pairwise distinct. -/
theorem pathsOf_nodup (p : List String) (d : NDir) (h : uniqNames d = true) :
    (pathsOf p d).Nodup := by
  cases d with
  | mk nm li fs subs =>
    rw [uniqNames, Bool.and_eq_true, decide_eq_true_eq] at h
    rw [pathsOf]
    cases li with
    | false => simp
    | true =>
      rw [if_pos rfl, List.nodup_cons]
      exact ⟨self_not_mem_pathsList p subs, pathsList_nodup p subs h.1 h.2⟩

/-- List version of `pathsOf_nodup`: distinct sibling names make the
sibling subtrees' path sets disjoint. -/
theorem pathsList_nodup (p : List String) (l : List NDir)
    (hn : (subNames l).Nodup) (h : uniqNamesList l = true) :
    (pathsList p l).Nodup := by
  cases l with
  | nil => simp [pathsList]
  | cons c cs =>
    rw [uniqNamesList, Bool.and_eq_true] at h
    rw [subNames, List.map_cons, List.nodup_cons] at hn
    rw [pathsList]
    refine List.Nodup.append (pathsOf_nodup (p ++ [c.name]) c h.1)
      (pathsList_nodup p cs hn.2 h.2) ?_
    intro q hq1 hq2
    have hpre1 : (p ++ [c.name]) <+: q := pathsOf_extends (p ++ [c.name]) c q hq1
    rcases pathsList_extends p cs q hq2 with ⟨c2, hc2, hpre2⟩
    obtain ⟨t1, ht1⟩ := hpre1
    obtain ⟨t2, ht2⟩ := hpre2
    have hq12 : (p ++ [c.name]) ++ t1 = (p ++ [c2.name]) ++ t2 := by rw [ht1, ht2]
    have heq : p ++ [c.name] = p ++ [c2.name] := (List.append_inj hq12 (by simp)).1
    have hname : c.name = c2.name := by
      have := List.append_cancel_left heq
      simpa using this
    exact hn.1 (hname ▸ List.mem_map_of_mem NDir.name hc2)
end

mutual
/-- Every node built with a parent id records a parent. -/
theorem build_parent_some (cfg : ColorCfg) (minS : Option Nat) (maxS : Nat)
    (sizes : List (List String × Nat)) (pid : NodeId) (path : List String) (d : NDir) :
    ∀ e ∈ build_directory_tree cfg minS maxS sizes (some pid) path d, e.2.parent ≠ none := by
  cases d with
  | mk nm li fs subs =>
    intro e he
    rw [build_directory_tree] at he
    rcases List.mem_cons.mp he with h | h
    · rw [h]
      simp [mkNode]
    · cases li with
      | false => simp at h
      | true =>
        simp only [if_true] at h
        exact buildSubdirs_parent_some cfg minS maxS sizes (generate_id path) path subs e h

/-- Every node built below a sibling list records a parent. -/
theorem buildSubdirs_parent_some (cfg : ColorCfg) (minS : Option Nat) (maxS : Nat)
    (sizes : List (List String × Nat)) (pid : NodeId) (path : List String) (l : List NDir) :
    ∀ e ∈ buildSubdirs cfg minS maxS sizes pid path l, e.2.parent ≠ none := by
  cases l with
  | nil => intro e he; simp [buildSubdirs] at he
  | cons c cs =>
    intro e he
    rw [buildSubdirs] at he
    rcases List.mem_append.mp he with h | h
    · exact build_parent_some cfg minS maxS sizes pid (path ++ [c.name]) c e h
    · exact buildSubdirs_parent_some cfg minS maxS sizes pid path cs e h
end

mutual
/-- With pairwise-distinct sibling names everywhere, no built node's
children list contains a duplicate. -/
theorem build_children_nodup (cfg : ColorCfg) (minS : Option Nat) (maxS : Nat)
    (sizes : List (List String × Nat)) (parent : Option NodeId) (path : List String)
    (d : NDir) (h : uniqNames d = true) :
    ∀ e ∈ build_directory_tree cfg minS maxS sizes parent path d, e.2.children.Nodup := by
  cases d with
  | mk nm li fs subs =>
    rw [uniqNames, Bool.and_eq_true, decide_eq_true_eq] at h
    intro e he
    rw [build_directory_tree] at he
    rcases List.mem_cons.mp he with hh | hh
    · rw [hh]
      simp only [mkNode]
      refine List.Nodup.map ?_ ?_
      · intro a b hab
        have := generate_id_inj hab
        simpa using this
      · rw [listedChildNames]
        cases li with
        | false => simp [NDir.listable]
        | true =>
          simp only [NDir.listable, NDir.subdirs, if_true]
          exact ((sortStrs_perm (subNames subs)).nodup_iff).mpr h.1
    · cases li with
      | false => simp at hh
      | true =>
        simp only [if_true] at hh
        exact buildSubdirs_children_nodup cfg minS maxS sizes (generate_id path) path subs
          h.2 e hh

/-- List version of `build_children_nodup`. -/
theorem buildSubdirs_children_nodup (cfg : ColorCfg) (minS : Option Nat) (maxS : Nat)
    (sizes : List (List String × Nat)) (pid : NodeId) (path : List String) (l : List NDir)
    (h : uniqNamesList l = true) :
    ∀ e ∈ buildSubdirs cfg minS maxS sizes pid path l, e.2.children.Nodup := by
  cases l with
  | nil => intro e he; simp [buildSubdirs] at he
  | cons c cs =>
    rw [uniqNamesList, Bool.and_eq_true] at h
    intro e he
    rw [buildSubdirs] at he
    rcases List.mem_append.mp he with hh | hh
    · exact build_children_nodup cfg minS maxS sizes (some pid) (path ++ [c.name]) c h.1 e hh
    · exact buildSubdirs_children_nodup cfg minS maxS sizes pid path cs h.2 e hh
end

/-- Child collection distributes over appending mappings. -/
theorem allChildren_append (a b : List (NodeId × DirNode)) :
    allChildren (a ++ b) = allChildren a ++ allChildren b := by
  simp [allChildren]

/-- Child collection of a cons. -/
theorem allChildren_cons (e : NodeId × DirNode) (es : List (NodeId × DirNode)) :
    allChildren (e :: es) = e.2.children ++ allChildren es := by
  simp [allChildren]

mutual
/-- The multiset of all child ids recorded in a built subtree is the
multiset of all visited paths except the subtree's own root. -/
theorem build_allChildren_perm (cfg : ColorCfg) (minS : Option Nat) (maxS : Nat)
    (sizes : List (List String × Nat)) (parent : Option NodeId) (path : List String)
    (d : NDir) :
    List.Perm (allChildren (build_directory_tree cfg minS maxS sizes parent path d))
      (((pathsOf path d).tail).map generate_id) := by
  cases d with
  | mk nm li fs subs =>
    rw [build_directory_tree, allChildren_cons]
    cases li with
    | false =>
      simp [mkNode, listedChildNames, NDir.listable, pathsOf, allChildren]
    | true =>
      simp only [if_true]
      have hch : (mkNode cfg minS maxS sizes parent path (NDir.mk nm true fs subs)).children
          = (sortStrs (subNames subs)).map (fun x => generate_id (path ++ [x])) := by
        simp [mkNode, listedChildNames, NDir.listable, NDir.subdirs]
      rw [hch]
      have ht : (pathsOf path (NDir.mk nm true fs subs)).tail = pathsList path subs := by
        simp [pathsOf]
      rw [ht]
      refine List.Perm.trans
        (List.Perm.append_right _ (List.Perm.map _ (sortStrs_perm (subNames subs)))) ?_
      exact buildSubdirs_allChildren_perm cfg minS maxS sizes (generate_id path) path subs

/-- List version of `build_allChildren_perm`: the sibling ids themselves
plus all child ids recorded below them are the paths visited below the
sibling list. -/
theorem buildSubdirs_allChildren_perm (cfg : ColorCfg) (minS : Option Nat) (maxS : Nat)
    (sizes : List (List String × Nat)) (pid : NodeId) (path : List String) (l : List NDir) :
    List.Perm
      (((subNames l).map (fun x => generate_id (path ++ [x]))) ++
        allChildren (buildSubdirs cfg minS maxS sizes pid path l))
      ((pathsList path l).map generate_id) := by
  cases l with
  | nil => simp [subNames, buildSubdirs, pathsList, allChildren]
  | cons c cs =>
    rw [buildSubdirs, allChildren_append, pathsList]
    rw [pathsOf_eq_cons (path ++ [c.name]) c]
    simp only [subNames, List.map_cons, List.map_append, List.cons_append]
    refine List.Perm.cons _ ?_
    have ih1 := build_allChildren_perm cfg minS maxS sizes (some pid) (path ++ [c.name]) c
    have ih2 := buildSubdirs_allChildren_perm cfg minS maxS sizes pid path cs
    refine (List.Perm.append_left _ (ih1.append_right _)).trans ?_
    rw [← List.append_assoc]
    refine (List.perm_append_comm.append_right _).trans ?_
    rw [List.append_assoc]
    exact List.Perm.append_left _ ih2
end

mutual
/-- Every subtree position visited by the builder has its node in the
built mapping, keyed by its path's id. -/
theorem subtrees_built (cfg : ColorCfg) (minS : Option Nat) (maxS : Nat)
    (sizes : List (List String × Nat)) (parent : Option NodeId) (path : List String)
    (d : NDir) :
    ∀ pr ∈ subtreesAt path d, ∃ par,
      (generate_id pr.1, mkNode cfg minS maxS sizes par pr.1 pr.2) ∈
        build_directory_tree cfg minS maxS sizes parent path d := by
  cases d with
  | mk nm li fs subs =>
    intro pr hpr
    rw [subtreesAt] at hpr
    rcases List.mem_cons.mp hpr with h | h
    · refine ⟨parent, ?_⟩
      rw [h, build_directory_tree]
      exact List.mem_cons_self _ _
    · cases li with
      | false => simp at h
      | true =>
        simp only [if_true] at h
        rcases subtreesList_built cfg minS maxS sizes (generate_id path) path subs pr h
          with ⟨par, hmem⟩
        refine ⟨par, ?_⟩
        rw [build_directory_tree]
        exact List.mem_cons_of_mem _ (by simpa using hmem)

/-- List version of `subtrees_built`. -/
theorem subtreesList_built (cfg : ColorCfg) (minS : Option Nat) (maxS : Nat)
    (sizes : List (List String × Nat)) (pid : NodeId) (path : List String) (l : List NDir) :
    ∀ pr ∈ subtreesList path l, ∃ par,
      (generate_id pr.1, mkNode cfg minS maxS sizes par pr.1 pr.2) ∈
        buildSubdirs cfg minS maxS sizes pid path l := by
  cases l with
  | nil => intro pr hpr; simp [subtreesList] at hpr
  | cons c cs =>
    intro pr hpr
    rw [subtreesList] at hpr
    rw [buildSubdirs]
    rcases List.mem_append.mp hpr with h | h
    · rcases subtrees_built cfg minS maxS sizes (some pid) (path ++ [c.name]) c pr h
        with ⟨par, hmem⟩
      exact ⟨par, List.mem_append_left _ hmem⟩
    · rcases subtreesList_built cfg minS maxS sizes pid path cs pr h with ⟨par, hmem⟩
      exact ⟨par, List.mem_append_right _ hmem⟩
end

mutual
/-- Every built entry's key and node id equal the id generated from the
node's own recorded path. -/
theorem build_id_of_path (cfg : ColorCfg) (minS : Option Nat) (maxS : Nat)
    (sizes : List (List String × Nat)) (parent : Option NodeId) (path : List String)
    (d : NDir) :
    ∀ e ∈ build_directory_tree cfg minS maxS sizes parent path d,
      e.2.id = generate_id e.2.path ∧ e.1 = e.2.id := by
  cases d with
  | mk nm li fs subs =>
    intro e he
    rw [build_directory_tree] at he
    rcases List.mem_cons.mp he with h | h
    · rw [h]
      simp [mkNode]
    · cases li with
      | false => simp at h
      | true =>
        simp only [if_true] at h
        exact buildSubdirs_id_of_path cfg minS maxS sizes (generate_id path) path subs e h

/-- List version of `build_id_of_path`. -/
theorem buildSubdirs_id_of_path (cfg : ColorCfg) (minS : Option Nat) (maxS : Nat)
    (sizes : List (List String × Nat)) (pid : NodeId) (path : List String) (l : List NDir) :
    ∀ e ∈ buildSubdirs cfg minS maxS sizes pid path l,
      e.2.id = generate_id e.2.path ∧ e.1 = e.2.id := by
  cases l with
  | nil => intro e he; simp [buildSubdirs] at he
  | cons c cs =>
    intro e he
    rw [buildSubdirs] at he
    rcases List.mem_append.mp he with h | h
    · exact build_id_of_path cfg minS maxS sizes (some pid) (path ++ [c.name]) c e h
    · exact buildSubdirs_id_of_path cfg minS maxS sizes pid path cs e h
end

/-- C5, counterexample.  A directory whose listing fails records no
children even though it has an immediate subdirectory, so its children
list is not the ids of its immediate subdirectories: the built mapping for
such a root consists of a single node with empty children, while the root
has one subdirectory named "A". -/
theorem c5_unlistable_counterexample :
    (build_directory_tree defaultCfg none 1 [] none ["root"]
        (.mk "root" false [] [.mk "A" true [] []])).map (fun e => e.2.children) = [[]] ∧
    subNames (NDir.mk "root" false [] [.mk "A" true [] []]).subdirs = ["A"] :=
  ⟨by decide, by decide⟩

/-- C5, amended.  For every directory position visited by the tree
builder, the built mapping holds a node (keyed by the directory's id)
whose children list is exactly the ids of the subdirectory names listed by
the builder: when the directory's listing succeeds these are exactly its
immediate subdirectories' names (a permutation of them), in case-sensitive
lexicographic order; when the listing fails, no children are recorded. -/
theorem c5_children_sorted (cfg : ColorCfg) (minS : Option Nat) (maxS : Nat)
    (sizes : List (List String × Nat)) (parent : Option NodeId) (path : List String)
    (d : NDir) (q : List String) (d2 : NDir)
    (h : (q, d2) ∈ subtreesAt path d) :
    ∃ (par : Option NodeId) (n : DirNode),
      (generate_id q, n) ∈ build_directory_tree cfg minS maxS sizes parent path d ∧
      n.children = (listedChildNames d2).map (fun nm => generate_id (q ++ [nm])) ∧
      List.Perm (listedChildNames d2) (if d2.listable then subNames d2.subdirs else []) ∧
      List.Pairwise (fun a b : String => lexLt b.data a.data = false) (listedChildNames d2) := by
  rcases subtrees_built cfg minS maxS sizes parent path d (q, d2) h with ⟨par, hmem⟩
  refine ⟨par, mkNode cfg minS maxS sizes par q d2, hmem, rfl, ?_, ?_⟩
  · by_cases hl : d2.listable = true
    · rw [listedChildNames, if_pos hl, if_pos hl]
      exact sortStrs_perm _
    · rw [listedChildNames, if_neg hl, if_neg hl]
  · rw [listedChildNames]
    by_cases hl : d2.listable = true
    · rw [if_pos hl]
      exact sortStrs_sorted _
    · rw [if_neg hl]
      exact List.Pairwise.nil

/-- Witness for C5 at the scenario tree: a root listing subdirectories in
the order B, A has children ids sorted to A before B. -/
theorem c5_children_sorted_witness :
    ((["root"], NDir.mk "root" true [] [.mk "B" true [] [], .mk "A" true [] []]) ∈
      subtreesAt ["root"] (NDir.mk "root" true [] [.mk "B" true [] [], .mk "A" true [] []])) ∧
    ∃ (par : Option NodeId) (n : DirNode),
      (generate_id ["root"], n) ∈
        build_directory_tree defaultCfg none 1 [] none ["root"]
          (NDir.mk "root" true [] [.mk "B" true [] [], .mk "A" true [] []]) ∧
      n.children = [generate_id ["root", "A"], generate_id ["root", "B"]] := by
  constructor
  · rw [subtreesAt]
    exact List.mem_cons_self _ _
  · rcases c5_children_sorted defaultCfg none 1 [] none ["root"]
      (NDir.mk "root" true [] [.mk "B" true [] [], .mk "A" true [] []]) ["root"]
      (NDir.mk "root" true [] [.mk "B" true [] [], .mk "A" true [] []])
      (by rw [subtreesAt]; exact List.mem_cons_self _ _) with ⟨par, n, hmem, hch, _, _⟩
    exact ⟨par, n, hmem, by rw [hch]; decide⟩

/-- C6.  Under the filesystem invariant that sibling names are pairwise
distinct, the built mapping has pairwise-distinct keys, exactly one node
without a parent (the root entry), duplicate-free children lists, every
non-root id occurring exactly once as a child across the whole mapping,
and the root id never occurring as a child. -/
theorem c6_tree_invariants (cfg : ColorCfg) (minS : Option Nat) (maxS : Nat)
    (sizes : List (List String × Nat)) (p0 : List String) (d : NDir)
    (h : uniqNames d = true) :
    ((build_directory_tree cfg minS maxS sizes none p0 d).map Prod.fst).Nodup ∧
    ((build_directory_tree cfg minS maxS sizes none p0 d).filter
        (fun e => e.2.parent = none)).length = 1 ∧
    (∀ e ∈ build_directory_tree cfg minS maxS sizes none p0 d, e.2.children.Nodup) ∧
    (∀ e ∈ build_directory_tree cfg minS maxS sizes none p0 d,
      e.1 ≠ generate_id p0 →
        childOcc (build_directory_tree cfg minS maxS sizes none p0 d) e.1 = 1) ∧
    childOcc (build_directory_tree cfg minS maxS sizes none p0 d) (generate_id p0) = 0 := by
  have hkeys := build_keys cfg minS maxS sizes none p0 d
  have hnodup := pathsOf_nodup p0 d h
  have hperm := build_allChildren_perm cfg minS maxS sizes none p0 d
  have hcons := pathsOf_eq_cons p0 d
  have htailnodup : (pathsOf p0 d).tail.Nodup := by
    rw [hcons] at hnodup
    exact (List.nodup_cons.mp hnodup).2
  have hnotmem : p0 ∉ (pathsOf p0 d).tail := by
    rw [hcons] at hnodup
    exact (List.nodup_cons.mp hnodup).1
  refine ⟨?_, ?_, ?_, ?_, ?_⟩
  · rw [hkeys]
    exact hnodup.map generate_id_inj
  · cases d with
    | mk nm li fs subs =>
      rw [build_directory_tree, List.filter_cons]
      rw [if_pos (by simp [mkNode])]
      have hrest : (List.filter (fun e => decide (e.2.parent = none))
          (if li = true then buildSubdirs cfg minS maxS sizes (generate_id p0) p0 subs
            else [])) = [] := by
        cases li with
        | false => simp
        | true =>
          simp only [if_true]
          rw [List.filter_eq_nil_iff]
          intro a ha
          simpa using buildSubdirs_parent_some cfg minS maxS sizes (generate_id p0) p0 subs a ha
      rw [hrest]
      rfl
  · exact build_children_nodup cfg minS maxS sizes none p0 d h
  · intro e he hne
    have hkey : e.1 ∈ (pathsOf p0 d).map generate_id := by
      rw [← hkeys]
      exact List.mem_map_of_mem Prod.fst he
    rcases List.mem_map.mp hkey with ⟨q, hq, hgen⟩
    have hqne : q ≠ p0 := by
      intro hqeq
      rw [hqeq] at hgen
      exact hne hgen.symm
    have hqtail : q ∈ (pathsOf p0 d).tail := by
      rw [hcons] at hq
      rcases List.mem_cons.mp hq with h1 | h1
      · exact absurd h1 hqne
      · exact h1
    have hmem2 : e.1 ∈ (pathsOf p0 d).tail.map generate_id :=
      hgen ▸ List.mem_map_of_mem generate_id hqtail
    rw [childOcc, hperm.count_eq]
    exact List.count_eq_one_of_mem (htailnodup.map generate_id_inj) hmem2
  · rw [childOcc, hperm.count_eq]
    refine List.count_eq_zero.mpr ?_
    intro hmem2
    rcases List.mem_map.mp hmem2 with ⟨q, hq, hgen⟩
    exact hnotmem (generate_id_inj hgen ▸ hq)

/-- Witness for C6 at a concrete two-child tree. -/
theorem c6_tree_invariants_witness :
    uniqNames (NDir.mk "root" true [] [.mk "A" true [] [], .mk "B" true [] []]) = true ∧
    childOcc
      (build_directory_tree defaultCfg none 1 [] none ["root"]
        (NDir.mk "root" true [] [.mk "A" true [] [], .mk "B" true [] []]))
      (generate_id ["root"]) = 0 :=
  ⟨by decide,
    (c6_tree_invariants defaultCfg none 1 [] ["root"]
      (NDir.mk "root" true [] [.mk "A" true [] [], .mk "B" true [] []])
      (by decide)).2.2.2.2⟩

/-- C8.  Generation is deterministic: the scan-then-build pipeline is a
pure function of the filesystem snapshot (running it twice yields the same
mapping), and every built entry's key and node id are the deterministic
id of the node's own absolute path. -/
theorem c8_deterministic_ids (rootName : String) (d : NDir) :
    runPipeline rootName d = runPipeline rootName d ∧
    ∀ e ∈ runPipeline rootName d,
      e.2.id = generate_id e.2.path ∧ e.1 = e.2.id := by
  refine ⟨rfl, ?_⟩
  intro e he
  exact build_id_of_path _ _ _ _ _ _ _ e (by simpa [runPipeline] using he)

/-- Witness for C8 at a one-directory snapshot. -/
theorem c8_deterministic_ids_witness :
    ((generate_id ["root"],
      mkNode defaultCfg none 1 [(["root"], 0)] none ["root"] (NDir.mk "root" true [] []))
        ∈ runPipeline "root" (NDir.mk "root" true [] [])) ∧
    (mkNode defaultCfg none 1 [(["root"], 0)] none ["root"] (NDir.mk "root" true [] [])).id =
      generate_id ["root"] := by
  constructor
  · decide
  · exact ((c8_deterministic_ids "root" (NDir.mk "root" true [] [])).2
      (generate_id ["root"],
        mkNode defaultCfg none 1 [(["root"], 0)] none ["root"] (NDir.mk "root" true [] []))
      (by decide)).1

/-- Two client states are equal when their three flags agree. -/
theorem sstate_eq {s t : SState} (h1 : s.highlight = t.highlight) (h2 : s.visible = t.visible)
    (h3 : s.expanded = t.expanded) : s = t := by
  cases s
  cases t
  simp only [SState.mk.injEq]
  exact ⟨h1, h2, h3⟩

/-- The ancestor walk never changes a highlight. -/
theorem markAncestors_highlight (st : NodeId → SState) (anc : List NodeId) (j : NodeId) :
    (markAncestors st anc j).highlight = (st j).highlight := by
  induction anc generalizing st with
  | nil => rfl
  | cons a rest ih =>
    rw [markAncestors, ih]
    by_cases hja : j = a
    · subst hja
      simp [updState]
    · simp [updState, hja]

/-- The ancestor walk makes exactly the walked ids visible (in addition to
what was already visible). -/
theorem markAncestors_visible (st : NodeId → SState) (anc : List NodeId) (j : NodeId) :
    (markAncestors st anc j).visible = ((st j).visible || decide (j ∈ anc)) := by
  induction anc generalizing st with
  | nil => simp [markAncestors]
  | cons a rest ih =>
    rw [markAncestors, ih]
    by_cases hja : j = a
    · subst hja
      simp [updState, List.mem_cons]
    · simp [updState, hja, List.mem_cons]

/-- The ancestor walk expands exactly the walked ids (in addition to what
was already expanded). -/
theorem markAncestors_expanded (st : NodeId → SState) (anc : List NodeId) (j : NodeId) :
    (markAncestors st anc j).expanded = ((st j).expanded || decide (j ∈ anc)) := by
  induction anc generalizing st with
  | nil => simp [markAncestors]
  | cons a rest ih =>
    rw [markAncestors, ih]
    by_cases hja : j = a
    · subst hja
      simp [updState, List.mem_cons]
    · simp [updState, hja, List.mem_cons]

/-- One match-loop step sets the processed node's highlight to its match
result and no other highlight. -/
theorem searchStep_highlight (term : List Char) (st : NodeId → SState) (e : SNode)
    (j : NodeId) :
    (searchStep term st e j).highlight =
      (if j = e.id then nameMatches term e else (st j).highlight) := by
  cases hm : nameMatches term e with
  | false =>
    rw [searchStep, if_neg (by simp [hm])]
    by_cases hj : j = e.id
    · subst hj
      simp [updState, hm]
    · simp [updState, hj]
  | true =>
    rw [searchStep, if_pos hm, markAncestors_highlight]
    by_cases hj : j = e.id
    · subst hj
      simp [updState, hm]
    · simp [updState, hj]

/-- One match-loop step makes visible exactly the matching node itself and
its ancestors. -/
theorem searchStep_visible (term : List Char) (st : NodeId → SState) (e : SNode)
    (j : NodeId) :
    (searchStep term st e j).visible =
      ((st j).visible || (decide (j = e.id) && nameMatches term e) ||
        (nameMatches term e && decide (j ∈ e.ancestors))) := by
  cases hm : nameMatches term e with
  | false =>
    rw [searchStep, if_neg (by simp [hm])]
    by_cases hj : j = e.id
    · subst hj
      simp [updState]
    · simp [updState, hj]
  | true =>
    rw [searchStep, if_pos hm, markAncestors_visible]
    by_cases hj : j = e.id
    · subst hj
      simp [updState]
    · simp [updState, hj, Bool.or_assoc]

/-- One match-loop step expands exactly the matching node itself and its
ancestors. -/
theorem searchStep_expanded (term : List Char) (st : NodeId → SState) (e : SNode)
    (j : NodeId) :
    (searchStep term st e j).expanded =
      ((st j).expanded || (decide (j = e.id) && nameMatches term e) ||
        (nameMatches term e && decide (j ∈ e.ancestors))) := by
  cases hm : nameMatches term e with
  | false =>
    rw [searchStep, if_neg (by simp [hm])]
    by_cases hj : j = e.id
    · subst hj
      simp [updState]
    · simp [updState, hj]
  | true =>
    rw [searchStep, if_pos hm, markAncestors_expanded]
    by_cases hj : j = e.id
    · subst hj
      simp [updState]
    · simp [updState, hj, Bool.or_assoc]

/-- Across the whole match loop, a node id's highlight is the match result
of the unique node carrying that id (untouched if no processed node
carries it). -/
theorem searchFold_highlight (term : List Char) (st : NodeId → SState) (nodes : List SNode)
    (j : NodeId) (hnd : (nodes.map SNode.id).Nodup) :
    ((nodes.foldl (searchStep term) st) j).highlight =
      (if nodes.any (fun x => decide (x.id = j)) then
        nodes.any (fun x => decide (x.id = j) && nameMatches term x)
      else (st j).highlight) := by
  induction nodes generalizing st with
  | nil => simp
  | cons e rest ih =>
    rw [List.map_cons, List.nodup_cons] at hnd
    rw [List.foldl_cons, ih (searchStep term st e) hnd.2]
    rw [List.any_cons, List.any_cons]
    by_cases hrest : rest.any (fun x => decide (x.id = j)) = true
    · have hj : ¬ (e.id = j) := by
        intro hh
        rcases List.any_eq_true.mp hrest with ⟨x, hx, hxj⟩
        have hxj2 : x.id = j := of_decide_eq_true hxj
        refine hnd.1 ?_
        rw [hh, ← hxj2]
        exact List.mem_map_of_mem SNode.id hx
      simp [hrest, hj]
    · have hrest2 : rest.any (fun x => decide (x.id = j)) = false := by
        cases hh : rest.any (fun x => decide (x.id = j))
        · rfl
        · exact absurd hh hrest
      have hrestm : rest.any (fun x => decide (x.id = j) && nameMatches term x) = false := by
        rw [List.any_eq_false]
        intro x hx
        have := (List.any_eq_false.mp hrest2) x hx
        simp only [Bool.and_eq_true, not_and] at this ⊢
        intro hc
        exact absurd hc this
      rw [if_neg (by simp [hrest2])]
      rw [searchStep_highlight]
      by_cases hj : j = e.id
      · subst hj
        simp [hrestm]
      · have hj2 : ¬ (e.id = j) := fun hh => hj hh.symm
        simp [hj, hj2, hrest2]

/-- Across the whole match loop, an id is visible exactly when it was
already visible, or a processed node with that id matches, or some
processed matching node has it among its ancestors. -/
theorem searchFold_visible (term : List Char) (st : NodeId → SState) (nodes : List SNode)
    (j : NodeId) :
    ((nodes.foldl (searchStep term) st) j).visible =
      ((st j).visible ||
        nodes.any (fun x => decide (x.id = j) && nameMatches term x) ||
        nodes.any (fun x => nameMatches term x && decide (j ∈ x.ancestors))) := by
  induction nodes generalizing st with
  | nil => simp
  | cons e rest ih =>
    rw [List.foldl_cons, ih, searchStep_visible, List.any_cons, List.any_cons]
    by_cases h1 : (decide (j = e.id) && nameMatches term e) = true
    · have h1b : (decide (e.id = j) && nameMatches term e) = true := by
        simp only [Bool.and_eq_true, decide_eq_true_eq] at h1 ⊢
        exact ⟨h1.1.symm, h1.2⟩
      simp [h1, h1b]
    · have h1f : (decide (j = e.id) && nameMatches term e) = false := by
        cases hh : (decide (j = e.id) && nameMatches term e)
        · rfl
        · exact absurd hh h1
      have h1bf : (decide (e.id = j) && nameMatches term e) = false := by
        simp only [Bool.and_eq_false_iff, decide_eq_false_iff_not] at h1f ⊢
        rcases h1f with hh | hh
        · exact Or.inl (fun hc => hh hc.symm)
        · exact Or.inr hh
      rw [h1f, h1bf]
      cases hv : (st j).visible <;>
        cases h2 : (nameMatches term e && decide (j ∈ e.ancestors)) <;>
          simp [Bool.or_assoc, Bool.or_comm, Bool.or_left_comm]

/-- Across the whole match loop, an id is expanded exactly when it was
already expanded, or a processed node with that id matches, or some
processed matching node has it among its ancestors. -/
theorem searchFold_expanded (term : List Char) (st : NodeId → SState) (nodes : List SNode)
    (j : NodeId) :
    ((nodes.foldl (searchStep term) st) j).expanded =
      ((st j).expanded ||
        nodes.any (fun x => decide (x.id = j) && nameMatches term x) ||
        nodes.any (fun x => nameMatches term x && decide (j ∈ x.ancestors))) := by
  induction nodes generalizing st with
  | nil => simp
  | cons e rest ih =>
    rw [List.foldl_cons, ih, searchStep_expanded, List.any_cons, List.any_cons]
    by_cases h1 : (decide (j = e.id) && nameMatches term e) = true
    · have h1b : (decide (e.id = j) && nameMatches term e) = true := by
        simp only [Bool.and_eq_true, decide_eq_true_eq] at h1 ⊢
        exact ⟨h1.1.symm, h1.2⟩
      simp [h1, h1b]
    · have h1f : (decide (j = e.id) && nameMatches term e) = false := by
        cases hh : (decide (j = e.id) && nameMatches term e)
        · rfl
        · exact absurd hh h1
      have h1bf : (decide (e.id = j) && nameMatches term e) = false := by
        simp only [Bool.and_eq_false_iff, decide_eq_false_iff_not] at h1f ⊢
        rcases h1f with hh | hh
        · exact Or.inl (fun hc => hh hc.symm)
        · exact Or.inr hh
      rw [h1f, h1bf]
      cases hv : (st j).expanded <;>
        cases h2 : (nameMatches term e && decide (j ∈ e.ancestors)) <;>
          simp [Bool.or_assoc, Bool.or_comm, Bool.or_left_comm]

/-- With pairwise-distinct ids, the match loop's per-id match test reduces
to the match result of the unique node with that id. -/
theorem any_id_and_match (term : List Char) (nodes : List SNode) (e : SNode)
    (hnd : (nodes.map SNode.id).Nodup) (he : e ∈ nodes) :
    nodes.any (fun x => decide (x.id = e.id) && nameMatches term x) = nameMatches term e := by
  induction nodes with
  | nil => cases he
  | cons a rest ih =>
    rw [List.map_cons, List.nodup_cons] at hnd
    rw [List.any_cons]
    rcases List.mem_cons.mp he with h | h
    · subst h
      have hrest : rest.any (fun x => decide (x.id = e.id) && nameMatches term x) = false := by
        rw [List.any_eq_false]
        intro x hx
        simp only [Bool.and_eq_true, decide_eq_true_eq, not_and]
        intro hc
        exact absurd (hc ▸ List.mem_map_of_mem SNode.id hx) hnd.1
      simp [hrest]
    · have hae : ¬ (a.id = e.id) := by
        intro hh
        exact hnd.1 (hh ▸ List.mem_map_of_mem SNode.id h)
      simp [hae, ih hnd.2 h]

/-- The empty-search branch's child loop makes exactly the listed children
visible, leaving other flags alone. -/
theorem foldChildrenVisible (children : List NodeId) (st : NodeId → SState) (j : NodeId) :
    (children.foldl (fun st c => updState st c (fun s => { s with visible := true })) st) j =
      { highlight := (st j).highlight,
        visible := (st j).visible || decide (j ∈ children),
        expanded := (st j).expanded } := by
  induction children generalizing st with
  | nil =>
    refine sstate_eq rfl ?_ rfl
    simp
  | cons c cs ih =>
    rw [List.foldl_cons, ih]
    by_cases hjc : j = c
    · subst hjc
      refine sstate_eq ?_ ?_ ?_ <;> simp [updState]
    · refine sstate_eq ?_ ?_ ?_ <;> simp [updState, hjc, List.mem_cons]

/-- C7, counterexample.  The claim covers every non-empty search term,
but `searchNodes` trims the term first (line 439): the whitespace-only
term " " is non-empty and matches no node name of the scenario tree, so
by the claim every node (no node being a match or an ancestor of a match)
would be reset to invisible, collapsed and not highlighted — yet the code
takes the empty-search branch and leaves the root visible and expanded. -/
theorem c7_whitespace_counterexample :
    (" " : String) ≠ "" ∧
    (nodesOf ["root"] []
        (NDir.mk "root" true []
          [NDir.mk "Idea" true [] [],
            NDir.mk "Story" true [] [NDir.mk "Plot" true [] []]])).any
      (fun e => nameMatches (lowerData " ") e) = false ∧
    searchNodes " " (generate_id ["root"])
        [generate_id ["root", "Idea"], generate_id ["root", "Story"]]
        (nodesOf ["root"] []
          (NDir.mk "root" true []
            [NDir.mk "Idea" true [] [],
              NDir.mk "Story" true [] [NDir.mk "Plot" true [] []]]))
        (generate_id ["root"]) =
      { highlight := false, visible := true, expanded := true } :=
  ⟨by decide, by decide, by decide⟩

/-- C7, amended.  For a search whose trimmed term is non-empty, every node's final
state is: highlighted exactly when its lowercased name contains the
(lowercased) term; visible and expanded exactly when it matches or is an
ancestor of a match (everything else stays at the reset state, invisible
and collapsed).  For a search whose trimmed term is empty, the state is
reset to the default: only the root is expanded, exactly the root and its
direct children are visible, and nothing is highlighted. -/
theorem c7_search (raw : String) (rootId : NodeId) (rootChildren : List NodeId)
    (nodes : List SNode) (hnd : (nodes.map SNode.id).Nodup) :
    ((trimWs (lowerData raw)).isEmpty = false →
      ∀ e ∈ nodes,
        searchNodes raw rootId rootChildren nodes e.id =
          { highlight := nameMatches (lowerData raw) e,
            visible := (nameMatches (lowerData raw) e ||
              nodes.any (fun m => nameMatches (lowerData raw) m && decide (e.id ∈ m.ancestors))),
            expanded := (nameMatches (lowerData raw) e ||
              nodes.any (fun m => nameMatches (lowerData raw) m && decide (e.id ∈ m.ancestors))) }) ∧
    ((trimWs (lowerData raw)).isEmpty = true →
      ∀ j, searchNodes raw rootId rootChildren nodes j =
        { highlight := false,
          visible := (decide (j = rootId) || decide (j ∈ rootChildren)),
          expanded := decide (j = rootId) }) := by
  constructor
  · intro hne e he
    simp only [searchNodes]
    rw [if_neg (by simp [hne])]
    refine sstate_eq ?_ ?_ ?_
    · rw [searchFold_highlight (lowerData raw) _ nodes e.id hnd]
      have hany : nodes.any (fun x => decide (x.id = e.id)) = true :=
        List.any_eq_true.mpr ⟨e, he, by simp⟩
      rw [if_pos hany]
      exact any_id_and_match (lowerData raw) nodes e hnd he
    · rw [searchFold_visible, any_id_and_match (lowerData raw) nodes e hnd he]
      simp
    · rw [searchFold_expanded, any_id_and_match (lowerData raw) nodes e hnd he]
      simp
  · intro hem j
    simp only [searchNodes]
    rw [if_pos (by simp [hem]), foldChildrenVisible]
    refine sstate_eq ?_ ?_ ?_
    · by_cases hjr : j = rootId
      · subst hjr
        simp [updState]
      · simp [updState, hjr]
    · by_cases hjr : j = rootId
      · subst hjr
        simp [updState]
      · simp [updState, hjr]
    · by_cases hjr : j = rootId
      · subst hjr
        simp [updState]
      · simp [updState, hjr]

/-- Witness for C7 at the scenario tree `root -> (Idea, Story)`,
`Story -> (Plot)`: searching "plot" highlights, expands and shows `Plot`,
expands and shows its ancestors `Story` and `root`, and leaves `Idea`
invisible; an empty search restores the default state, e.g. `Idea` is
visible (a root child) but collapsed and not highlighted. -/
theorem c7_search_witness :
    (((nodesOf ["root"] []
        (NDir.mk "root" true []
          [NDir.mk "Idea" true [] [],
            NDir.mk "Story" true [] [NDir.mk "Plot" true [] []]])).map SNode.id).Nodup) ∧
    (trimWs (lowerData "plot")).isEmpty = false ∧
    searchNodes "plot" (generate_id ["root"])
        [generate_id ["root", "Idea"], generate_id ["root", "Story"]]
        (nodesOf ["root"] []
          (NDir.mk "root" true []
            [NDir.mk "Idea" true [] [],
              NDir.mk "Story" true [] [NDir.mk "Plot" true [] []]]))
        (generate_id ["root", "Story", "Plot"]) =
      { highlight := true, visible := true, expanded := true } ∧
    searchNodes "plot" (generate_id ["root"])
        [generate_id ["root", "Idea"], generate_id ["root", "Story"]]
        (nodesOf ["root"] []
          (NDir.mk "root" true []
            [NDir.mk "Idea" true [] [],
              NDir.mk "Story" true [] [NDir.mk "Plot" true [] []]]))
        (generate_id ["root", "Story"]) =
      { highlight := false, visible := true, expanded := true } ∧
    searchNodes "plot" (generate_id ["root"])
        [generate_id ["root", "Idea"], generate_id ["root", "Story"]]
        (nodesOf ["root"] []
          (NDir.mk "root" true []
            [NDir.mk "Idea" true [] [],
              NDir.mk "Story" true [] [NDir.mk "Plot" true [] []]]))
        (generate_id ["root", "Idea"]) =
      { highlight := false, visible := false, expanded := false } ∧
    searchNodes "" (generate_id ["root"])
        [generate_id ["root", "Idea"], generate_id ["root", "Story"]]
        (nodesOf ["root"] []
          (NDir.mk "root" true []
            [NDir.mk "Idea" true [] [],
              NDir.mk "Story" true [] [NDir.mk "Plot" true [] []]]))
        (generate_id ["root", "Idea"]) =
      { highlight := false, visible := true, expanded := false } := by
  have h := (c7_search "plot" (generate_id ["root"])
      [generate_id ["root", "Idea"], generate_id ["root", "Story"]]
      (nodesOf ["root"] []
        (NDir.mk "root" true []
          [NDir.mk "Idea" true [] [],
            NDir.mk "Story" true [] [NDir.mk "Plot" true [] []]]))
      (by decide)).1 (by decide)
  have h2 := (c7_search "" (generate_id ["root"])
      [generate_id ["root", "Idea"], generate_id ["root", "Story"]]
      (nodesOf ["root"] []
        (NDir.mk "root" true []
          [NDir.mk "Idea" true [] [],
            NDir.mk "Story" true [] [NDir.mk "Plot" true [] []]]))
      (by decide)).2 (by decide)
  refine ⟨by decide, by decide, ?_, ?_, ?_, ?_⟩
  · exact (h ⟨generate_id ["root", "Story", "Plot"], "Plot",
      [generate_id ["root", "Story"], generate_id ["root"]]⟩ (by decide)).trans (by decide)
  · exact (h ⟨generate_id ["root", "Story"], "Story", [generate_id ["root"]]⟩
      (by decide)).trans (by decide)
  · exact (h ⟨generate_id ["root", "Idea"], "Idea", [generate_id ["root"]]⟩
      (by decide)).trans (by decide)
  · exact (h2 (generate_id ["root", "Idea"])).trans (by decide)
